import Mathlib

/-!
Verification of the hybrid retrieval / reranking engine of the legal QA system
(`retriever_custom.py`, `generator.py`).

Modelling conventions:
- Python floats are modelled as exact rationals (`ℚ`).
- External oracles (the Weaviate vector store, the embedding model, the
  cross-encoder reranker, the Gemini generation model, the pyvi tokenizer and
  the BM25 index scores) are passed in as explicit inputs or functions.
- Fallible Python code (exceptions such as `np.max` of an empty array, or an
  out-of-range list index) is modelled with `Option`, `none` meaning the call
  raises.
- Weaviate property dictionaries are modelled as a `Chunk` record of strings;
  an absent or `None` property is modelled as `""` (the Python code collapses
  both to `""` / falsy uniformly via `.get(x, "")` and `(p.get(x) or "")`).
- Python `list.sort(key=..., reverse=True)` is a stable descending sort; it is
  modelled with `List.insertionSort` of the corresponding `≥`-by-key relation,
  which is also stable, hence produces the identical list.
-/

namespace LegalQA

/-- Fragment record: the Weaviate properties used by `retriever_custom.py`.
The `section` property is called `sec` because `section` is a Lean keyword. -/
structure Chunk where
  law : String
  chapter : String
  sec : String
  article_no : String
  article_title : String
  clause_no : String
  point : String
  clause_head : String
  text : String
  enriched_text : String
  display_citation : String
deriving DecidableEq, Repr

/-- Candidate: a fragment paired with a numeric score (dicts
`{"props": ..., "score": ...}` built in `retrieve_dense` / `retrieve_hybrid`). -/
structure Candidate where
  props : Chunk
  score : ℚ
deriving DecidableEq, Repr

/-- Chunk with every field empty, used for concrete test fragments. -/
def emptyChunk : Chunk :=
  { law := "", chapter := "", sec := "", article_no := "", article_title := ""
    clause_no := "", point := "", clause_head := "", text := ""
    enriched_text := "", display_citation := "" }

/-- Test fragment carrying only a citation key. -/
def mkChunk (cit : String) : Chunk := { emptyChunk with display_citation := cit }

/-! ### Query intent classifier (`tune_alpha`, lines 40-54)

The two compiled patterns are
`LEGAL_HINT_RE = \b(Chương|Mục|Điều|Khoản|Điểm)\s+[IVXLC\d]+` and
`NUMERIC_INFO_RE = \b(\d+)\s*(giờ|km/h|triệu|nghìn|đồng|lần|ngày|tháng|năm|%|phần trăm|cm3|cc|tấn|km|m|kW|điểm|giấy phép lái xe)\b`,
both with `re.IGNORECASE`. They are embedded as executable searches over
`List Char`. -/

/-- Case folding used to model `re.IGNORECASE`: ASCII letters fold via
`Char.toLower`; the uppercase Vietnamese letters occurring in the pattern
alternatives fold explicitly. -/
def viLower (c : Char) : Char :=
  if c = 'Ư' then 'ư' else if c = 'Ơ' then 'ơ' else if c = 'Ụ' then 'ụ'
  else if c = 'Đ' then 'đ' else if c = 'Ề' then 'ề' else if c = 'Ả' then 'ả'
  else if c = 'Ể' then 'ể' else if c = 'Ờ' then 'ờ' else if c = 'Ệ' then 'ệ'
  else if c = 'Ì' then 'ì' else if c = 'Ồ' then 'ồ' else if c = 'Ầ' then 'ầ'
  else if c = 'À' then 'à' else if c = 'Á' then 'á' else if c = 'Ă' then 'ă'
  else if c = 'Ấ' then 'ấ' else if c = 'É' then 'é' else c.toLower

/-- Python regex `\w` (Unicode word character), restricted to the ranges that
matter for Vietnamese text: ASCII alphanumerics, underscore, and the Latin
letter blocks U+00C0..U+1EFF (which contain the whole Vietnamese alphabet),
excluding the two non-letters `×` (U+00D7) and `÷` (U+00F7). -/
def isWordChar (c : Char) : Bool :=
  c.isAlphanum || c == '_' ||
    decide ((0xC0 ≤ c.toNat ∧ c.toNat ≤ 0x1EFF) ∧ c.toNat ≠ 0xD7 ∧ c.toNat ≠ 0xF7)

/-- Character class `[IVXLC\d]` under `re.IGNORECASE`. -/
def isRomanOrDigitChar (c : Char) : Bool :=
  c.isDigit || ("IVXLCivxlc".toList.contains c)

/-- Alternatives of `LEGAL_HINT_RE`, pre-folded to lowercase. -/
def legalTokens : List (List Char) :=
  ["chương".toList, "mục".toList, "điều".toList, "khoản".toList, "điểm".toList]

/-- Helper for `\s+[IVXLC\d]+`: after consuming one whitespace character, skip
the rest of the whitespace run and require a `[IVXLC\d]` character. -/
def afterSpaces : List Char → Bool
  | [] => false
  | c :: rest => if c.isWhitespace then afterSpaces rest else isRomanOrDigitChar c

/-- Tail `\s+[IVXLC\d]+` of `LEGAL_HINT_RE`: at least one whitespace character,
then (after the whitespace run) at least one `[IVXLC\d]` character. -/
def legalTail : List Char → Bool
  | [] => false
  | c :: rest => c.isWhitespace && afterSpaces rest

/-- Match of `(Chương|Mục|Điều|Khoản|Điểm)\s+[IVXLC\d]+` at the head of `l`
(case-insensitively). -/
def legalHintAt (l : List Char) : Bool :=
  legalTokens.any fun kw =>
    ((l.take kw.length).map viLower == kw) && legalTail (l.drop kw.length)

/-- Search loop for `LEGAL_HINT_RE.search`: tries every start position; a
start position is admissible when the previous character (if any) is not a
word character (the `\b` boundary — the first pattern character is a letter). -/
def legalHintAux : Option Char → List Char → Bool
  | _, [] => false
  | prev, c :: rest =>
    ((prev.all fun p => !isWordChar p) && legalHintAt (c :: rest)) ||
      legalHintAux (some c) rest

/-- Embedding of `LEGAL_HINT_RE.search(query)` (`re.search` returns a match
somewhere in the string, not only at the start). -/
def legalHintSearch (query : String) : Bool :=
  legalHintAux none query.toList

/-- Alternatives of the unit group of `NUMERIC_INFO_RE`, pre-folded to
lowercase (`kW` folds to `kw`). -/
def numericUnits : List (List Char) :=
  ["giờ".toList, "km/h".toList, "triệu".toList, "nghìn".toList, "đồng".toList,
   "lần".toList, "ngày".toList, "tháng".toList, "năm".toList, "%".toList,
   "phần trăm".toList, "cm3".toList, "cc".toList, "tấn".toList, "km".toList,
   "m".toList, "kw".toList, "điểm".toList, "giấy phép lái xe".toList]

/-- Trailing `\b` of `NUMERIC_INFO_RE` after a matched unit alternative `kw`:
a word boundary holds when exactly one of (last pattern character, next text
character) is a word character; end of string counts as a non-word character.
Matched text characters case-fold to the pattern characters, and the folding
preserves word-character status, so the last pattern character can be used. -/
def wordBoundaryAfter (kw : List Char) (rest : List Char) : Bool :=
  (match kw.getLast? with
    | some c => isWordChar c
    | none => false) !=
  (match rest with
    | [] => false
    | c :: _ => isWordChar c)

/-- Match of one unit alternative at the head of `l`, including the trailing
word boundary. -/
def unitMatchesAt (l : List Char) (kw : List Char) : Bool :=
  ((l.take kw.length).map viLower == kw) && wordBoundaryAfter kw (l.drop kw.length)

/-- Match of `(\d+)\s*(units...)\b` at the head of `l`: at least one digit,
then the (maximal) digit run, then the (maximal) whitespace run for `\s*`,
then some unit alternative with its trailing boundary. Maximal runs are
faithful because no unit alternative starts with a digit or whitespace, so
regex backtracking cannot shorten the runs. -/
def numericInfoAt (l : List Char) : Bool :=
  match l with
  | [] => false
  | c :: rest =>
    c.isDigit &&
      (let afterDigits := rest.dropWhile fun d => d.isDigit
       let afterWs := afterDigits.dropWhile fun d => d.isWhitespace
       numericUnits.any fun kw => unitMatchesAt afterWs kw)

/-- Search loop for `NUMERIC_INFO_RE.search`; the leading `\b` requires the
previous character (if any) to be a non-word character, the first matched
character being a digit. -/
def numericInfoAux : Option Char → List Char → Bool
  | _, [] => false
  | prev, c :: rest =>
    ((prev.all fun p => !isWordChar p) && numericInfoAt (c :: rest)) ||
      numericInfoAux (some c) rest

/-- Embedding of `NUMERIC_INFO_RE.search(query)`. -/
def numericInfoSearch (query : String) : Bool :=
  numericInfoAux none query.toList

/-- Embedding of `tune_alpha` (lines 43-54): dynamic alpha tuning based on the
two query patterns, first match wins, default `base_alpha = 0.55`. -/
def tune_alpha (query : String) (base_alpha : ℚ := 0.55) : ℚ :=
  if legalHintSearch query then max 0.30 (base_alpha - 0.25)
  else if numericInfoSearch query then max 0.40 (base_alpha - 0.15)
  else min 0.75 (base_alpha + 0.20)

/-! ### Citation deduplication (`generator.py`, `_dedupe_sources`, lines 84-93) -/

/-- Python `str.strip()`: drop leading and trailing whitespace (modelled with
`Char.isWhitespace`, which covers the ASCII whitespace of this corpus). -/
def pyStrip (s : String) : String :=
  String.mk (((s.toList.dropWhile Char.isWhitespace).reverse.dropWhile Char.isWhitespace).reverse)

/-- Python `str.lower()` applied characterwise, with the same folding table as
`viLower` (ASCII plus the uppercase Vietnamese letters of this corpus). -/
def pyLowerStr (s : String) : String :=
  String.mk (s.toList.map viLower)

/-- Helper for `re.sub(r"\s+", " ", ...)`: replaces every maximal whitespace
run with a single space; the Boolean argument records whether the previous
character already belonged to a whitespace run. -/
def collapseWsAux : Bool → List Char → List Char
  | _, [] => []
  | prev, c :: rest =>
    if c.isWhitespace then
      if prev then collapseWsAux true rest else ' ' :: collapseWsAux true rest
    else c :: collapseWsAux false rest

/-- Deduplication key of a citation string:
`re.sub(r"\s+", " ", s.strip().lower())` (strip, then lowercase, then collapse
whitespace runs). -/
def normKey (s : String) : String :=
  String.mk (collapseWsAux false (pyLowerStr (pyStrip s)).toList)

/-- Loop of `_dedupe_sources`, carrying the `seen` set of keys. A source is
kept when its key is nonempty and unseen (`if key and key not in seen`). -/
def dedupeAux (seen : List String) : List String → List String
  | [] => []
  | s :: rest =>
    let key := normKey s
    if key != "" && !(seen.contains key) then s :: dedupeAux (key :: seen) rest
    else dedupeAux seen rest

/-- Embedding of `_dedupe_sources` (lines 84-93). -/
def dedupe_sources (sources : List String) : List String :=
  dedupeAux [] sources

/-- Modelled from the claim wording: deduplication that keeps the first
occurrence of every citation (by normalized key) and drops later duplicates,
with no further filtering. Used to compare the claimed behaviour with
`dedupe_sources`. -/
def dedupeClaimed : List String → List String
  | [] => []
  | s :: rest => s :: dedupeClaimed (rest.filter fun t => !(normKey t == normKey s))
termination_by l => l.length
decreasing_by
  simp only [List.length_cons]
  exact Nat.lt_succ_of_le (List.length_filter_le _ _)

/-- Modelled from the amended claim wording: keep, in order, the first
occurrence of each citation whose normalized key is nonempty; citations whose
key normalizes to the empty string are dropped. -/
def keepFirst : List String → List String
  | [] => []
  | s :: rest =>
    if normKey s = "" then keepFirst rest
    else s :: keepFirst (rest.filter fun t => !(normKey t == normKey s))
termination_by l => l.length
decreasing_by
  · simp only [List.length_cons]; exact Nat.lt_succ_self _
  · simp only [List.length_cons]
    exact Nat.lt_succ_of_le (List.length_filter_le _ _)

/-! ### Answer generation (`generator.py`, `generate_answer`, lines 108-148)

The Gemini model is an oracle `String → Except String String` from the prompt
to either the response text (`resp.text or ""`) or a raised exception message. -/

/-- Sentinel answer returned when the context is too short (line 124). -/
def INSUFFICIENT_INFO_MSG : String :=
  "Trong các trích dẫn luật được cung cấp, không có đủ thông tin để trả lời chính xác câu hỏi này."

/-- Fallback answer when the model returns empty text (line 143). -/
def EMPTY_RESPONSE_MSG : String :=
  "Không tìm thấy đủ thông tin trong các văn bản luật đã được lập chỉ mục để trả lời câu hỏi này."

/-- Embedding of `_truncate_context` (lines 96-100). -/
def truncate_context (ctx : String) (max_chars : ℕ := 20000) : String :=
  if ctx.length ≤ max_chars then ctx
  else String.mk (ctx.toList.take max_chars) ++ "\n… (đã cắt ngắn context do quá dài)"

/-- Embedding of `_build_prompt` / `USER_PROMPT_TMPL.format(...)`
(lines 65-80, 103-104). -/
def build_prompt (question context : String) : String :=
  "Câu hỏi của người dùng:\n" ++ pyStrip question ++
  "\n\nCác đoạn luật (trích từ văn bản pháp luật, bạn PHẢI bám sát):\n" ++ pyStrip context ++
  "\n\nYêu cầu:\n" ++
  "- Trước hết hãy trả lời trực tiếp câu hỏi, trình bày mạch lạc, dễ hiểu.\n" ++
  "- Nếu câu hỏi liên quan đến mức phạt, trách nhiệm, nghĩa vụ thì hãy liệt kê rõ theo từng trường hợp liên quan trong context (ví dụ: theo loại xe, đối tượng vi phạm, hành vi...).\n" ++
  "- Ở cuối câu trả lời, thêm một dòng riêng:\n" ++
  "  \"Căn cứ pháp lý: ...\" \n" ++
  "  và liệt kê các căn cứ pháp lý dựa trên thông tin trong dòng [Căn cứ: ...] ở đầu mỗi đoạn luật.\n" ++
  "  Ví dụ: nếu thấy \"[Căn cứ: khoản 4 Điều 2 Luật số 35/2024/QH15]\" thì ghi \"khoản 4 Điều 2 Luật số 35/2024/QH15\".\n" ++
  "- Không được viện dẫn bất kỳ căn cứ nào không có trong các đoạn luật ở trên.\n"

/-- Embedding of `generate_answer` (lines 108-148). The guard is
`if not context.strip() or len(context) < 300`; in that branch the function
returns the sentinel with an empty source list without consulting the model
oracle. Otherwise the context is truncated, the sources are deduplicated, and
the oracle answers the built prompt (empty text falls back to
`EMPTY_RESPONSE_MSG`, an exception `e` to the `"Lỗi khi gọi Gemini API: "`
message). -/
def generate_answer (oracle : String → Except String String)
    (question context : String) (sources : Option (List String)) :
    String × List String :=
  if pyStrip context = "" ∨ context.length < 300 then (INSUFFICIENT_INFO_MSG, [])
  else
    let truncated := truncate_context context
    let srcs := dedupe_sources (sources.getD [])
    let prompt := build_prompt question truncated
    let text :=
      match oracle prompt with
      | .ok t => if pyStrip t = "" then EMPTY_RESPONSE_MSG else pyStrip t
      | .error e => "Lỗi khi gọi Gemini API: " ++ e
    (text, srcs)

/-! ### Dense retrieval (`retrieve_dense`, lines 141-166)

The vector store answer is a list of hits, each a property record with an
optional cosine distance in its metadata. -/

/-- Weaviate near-vector hit: properties plus optional distance metadata. -/
structure DenseHit where
  props : Chunk
  distance : Option ℚ
deriving DecidableEq, Repr

/-- Embedding of line 160,
`score = 1.0 - obj.metadata.distance if obj.metadata.distance else 0.0`:
the conditional tests Python truthiness, so the subtraction happens only when
the distance is present AND nonzero; an absent (`None`) or zero distance both
fall to the `else 0.0` branch. -/
def denseScore (distance : Option ℚ) : ℚ :=
  match distance with
  | some d => if d ≠ 0 then 1 - d else 0
  | none => 0

/-- Embedding of `retrieve_dense` (lines 141-166): one candidate per hit, in
store order, scored by `denseScore`. -/
def retrieve_dense (hits : List DenseHit) : List Candidate :=
  hits.map fun h => { props := h.props, score := denseScore h.distance }

/-! ### Hybrid fusion (`retrieve_hybrid`, lines 168-216)

The function is deterministic given its two input ranked lists, so it is
embedded as a function of the BM25 result (`bm25_indices`, `bm25_scores`, as
returned by `retrieve_bm25`), the dense result list, and the corpus
`chunks_cache`. `Option` models the Python exceptions: `np.max` of an empty
array raises `ValueError`, and `chunks_cache[idx]` raises `IndexError` for an
out-of-range index. -/

/-- Lookup `chunks_cache[idx]` for every index (raising, i.e. `none`, on an
out-of-range index). -/
def getChunks (chunks : List Chunk) : List ℕ → Option (List Chunk)
  | [] => some []
  | i :: rest => do
    let c ← chunks[i]?
    let cs ← getChunks chunks rest
    pure (c :: cs)

/-- Lookup in a Python `dict` built from an association list: a later binding
for the same key overwrites an earlier one, so the lookup prefers the value of
the LAST matching entry. -/
def dictGetAux : List (String × ℚ) → String → Option ℚ
  | [], _ => none
  | p :: rest, key =>
    match dictGetAux rest key with
    | some v => some v
    | none => if p.1 == key then some p.2 else none

/-- Python `dict` built from an association list (later bindings overwrite
earlier ones) read with `.get(key, 0.0)`. -/
def dictGet (m : List (String × ℚ)) (key : String) : ℚ :=
  (dictGetAux m key).getD 0

/-- The `1e-8` normalization epsilon of line 175. -/
def EPS : ℚ := 1 / 100000000

/-- Embedding of line 175,
`bm25_scores_norm = np.array(bm25_scores) / (np.max(bm25_scores) + 1e-8)`;
`none` when the score list is empty (`np.max` raises `ValueError`). -/
def normalizeScores (scores : List ℚ) : Option (List ℚ) :=
  scores.max?.map fun m => scores.map fun s => s / (m + EPS)

/-- Embedding of the `bm25_score_map` construction (lines 182-186): normalized
scores keyed by `display_citation` of `chunks_cache[idx]`, pairing indices and
scores positionally (`zip`). -/
def lexScoreMap (chunks : List Chunk) (bm25_indices : List ℕ)
    (bm25_scores : List ℚ) : Option (List (String × ℚ)) := do
  let norm ← normalizeScores bm25_scores
  let bm25_chunks ← getChunks chunks bm25_indices
  pure ((bm25_chunks.map fun c => c.display_citation).zip norm)

/-- Embedding of the pre-truncation `combined` pool of `retrieve_hybrid`
(lines 180-212): the dense candidates rescored by
`alpha * dense + (1 - alpha) * bm25`, followed by the BM25-only candidates
(citation not among the dense citations) scored `(1 - alpha) * bm25`. -/
def hybridCombined (chunks : List Chunk) (bm25_indices : List ℕ)
    (bm25_scores : List ℚ) (dense_results : List Candidate) (alpha : ℚ) :
    Option (List Candidate) := do
  let m ← lexScoreMap chunks bm25_indices bm25_scores
  let bm25_chunks ← getChunks chunks bm25_indices
  let dense_citations := dense_results.map fun r => r.props.display_citation
  let combined1 := dense_results.map fun dr =>
    ({ props := dr.props
       score := alpha * dr.score + (1 - alpha) * dictGet m dr.props.display_citation } : Candidate)
  let combined2 :=
    (bm25_chunks.filter fun c => !(dense_citations.contains c.display_citation)).map fun c =>
      ({ props := c, score := (1 - alpha) * dictGet m c.display_citation } : Candidate)
  pure (combined1 ++ combined2)

/-- Descending order on fused scores, the key of the
`combined.sort(key=lambda x: x["score"], reverse=True)` call (line 215). -/
def scoreGE (a b : Candidate) : Prop := b.score ≤ a.score

instance : DecidableRel scoreGE := fun a b => inferInstanceAs (Decidable (b.score ≤ a.score))

instance : IsTotal Candidate scoreGE := ⟨fun a b => le_total b.score a.score⟩

instance : IsTrans Candidate scoreGE := ⟨fun _ _ _ h1 h2 => le_trans h2 h1⟩

/-- Embedding of `retrieve_hybrid` (lines 168-216): build the combined pool,
sort it descending by fused score (Python sort is stable, modelled by the
stable `insertionSort`), truncate to `k`. -/
def retrieve_hybrid (chunks : List Chunk) (bm25_indices : List ℕ)
    (bm25_scores : List ℚ) (dense_results : List Candidate) (alpha : ℚ)
    (k : ℕ) : Option (List Candidate) :=
  (hybridCombined chunks bm25_indices bm25_scores dense_results alpha).map
    fun combined => (List.insertionSort scoreGE combined).take k

/-! ### Reranking (`rerank`, lines 218-235)

The cross-encoder is an oracle `String → String → ℚ` from (query,
`enriched_text`) pairs to scores. -/

/-- Candidate with the `rerank_score` field attached (line 232). -/
structure RankedCandidate where
  props : Chunk
  score : ℚ
  rerank_score : ℚ
deriving DecidableEq, Repr

/-- Descending order on reranker scores, the key of
`candidates.sort(key=lambda x: x["rerank_score"], reverse=True)` (line 234). -/
def rerankGE (a b : RankedCandidate) : Prop := b.rerank_score ≤ a.rerank_score

instance : DecidableRel rerankGE := fun a b => inferInstanceAs (Decidable (b.rerank_score ≤ a.rerank_score))

instance : IsTotal RankedCandidate rerankGE := ⟨fun a b => le_total b.rerank_score a.rerank_score⟩

instance : IsTrans RankedCandidate rerankGE := ⟨fun _ _ _ h1 h2 => le_trans h2 h1⟩

/-- Python slice `l[:n]` for an `int` bound: `take n` for `n ≥ 0`, and
`take (len - |n|)` for negative `n`. -/
def pyTake (n : Int) (l : List α) : List α :=
  if 0 ≤ n then l.take n.toNat
  else l.take (l.length - (-n).toNat)

/-- Embedding of `rerank` (lines 218-235): empty input returns empty without
consulting the oracle; otherwise every candidate gets
`rerank_score = oracle(query, enriched_text)`, the list is sorted descending
by that score alone, and truncated to `final_k`. -/
def rerank (rr : String → String → ℚ) (query : String)
    (candidates : List Candidate) (final_k : Int) : List RankedCandidate :=
  if candidates.isEmpty then []
  else
    let scored := candidates.map fun c =>
      ({ props := c.props, score := c.score
         rerank_score := rr query c.props.enriched_text } : RankedCandidate)
    pyTake final_k (List.insertionSort rerankGE scored)

/-! ### Top-level retrieval (`retrieve`, lines 238-320) -/

/-- Pool size before rerank (line 36). -/
def INITIAL_K : ℕ := 20

/-- Default final result count (line 37). -/
def FINAL_K : ℕ := 5

/-- Embedding of line 244, `k = int(k) if k else 5`: `None` and `0` are falsy
and replaced by the default `5`; any other `int` passes through (`int(k)` is
the identity on `int`s). -/
def kEff (k : Option Int) : Int :=
  match k with
  | none => 5
  | some v => if v = 0 then 5 else v

/-- Embedding of the context block rendering of `retrieve` (lines 259-313):
per-field strip (note: `clause_no` is NOT stripped in the source, line 267),
then the hierarchy-aware lines, joined with newlines and stripped. -/
def formatChunk (p : Chunk) : String :=
  let law := (pyStrip p.law)
  let chapter := (pyStrip p.chapter)
  let sec := (pyStrip p.sec)
  let article_no := (pyStrip p.article_no)
  let article_title := (pyStrip p.article_title)
  let clause_no := p.clause_no
  let clause_head := (pyStrip p.clause_head)
  let point := (pyStrip p.point)
  let body_for_ctx := (pyStrip p.text)
  let display_citation := (pyStrip p.display_citation)
  let lines : List String :=
    (if display_citation ≠ "" then [s!"[Căn cứ: {display_citation}]"] else []) ++
    (if law ≠ "" then [law] else []) ++
    (if chapter ≠ "" then [chapter] else []) ++
    (if sec ≠ "" then [sec] else []) ++
    (if article_no ≠ "" ∨ article_title ≠ "" then
      [if article_title ≠ "" then pyStrip (s!"Điều {article_no}") ++ s!". {article_title}"
       else pyStrip (s!"Điều {article_no}")]
     else []) ++
    (if point ≠ "" then
      (if clause_no ≠ "" ∧ clause_head ≠ "" then [s!"Khoản {clause_no}. {clause_head}"]
       else if clause_no ≠ "" then [s!"Khoản {clause_no}"]
       else []) ++
      [s!"Điểm {point})"] ++
      (if body_for_ctx ≠ "" then [body_for_ctx] else [])
     else
      (if clause_no ≠ "" then [s!"Khoản {clause_no}"] else []) ++
      (if body_for_ctx ≠ "" then [body_for_ctx] else []))
  pyStrip (String.intercalate "\n" lines)

/-- Embedding of `retrieve` (lines 238-320): normalize `k`, tune alpha, run
hybrid fusion with pool size `INITIAL_K`, rerank to the final bound, then
format: nonempty context blocks joined by blank lines, plus one source
citation per result (the source loop appends `display_citation`, or `""` when
it is missing, for every result). -/
def retrieve (chunks : List Chunk) (bm25_indices : List ℕ) (bm25_scores : List ℚ)
    (dense_results : List Candidate) (rr : String → String → ℚ)
    (question : String) (k : Option Int := some 5) :
    Option (String × List String) := do
  let kk := kEff k
  let alpha := tune_alpha question 0.55
  let candidates ← retrieve_hybrid chunks bm25_indices bm25_scores dense_results alpha INITIAL_K
  let top_results := rerank rr question candidates kk
  let contexts := (top_results.map fun r => formatChunk r.props).filter fun s => !(s == "")
  let sources := top_results.map fun r => r.props.display_citation
  pure (String.intercalate "\n\n" contexts, sources)

/-! ## Helper lemmas -/

theorem keepFirst_cons (s : String) (rest : List String) :
    keepFirst (s :: rest) =
      if normKey s = "" then keepFirst rest
      else s :: keepFirst (rest.filter fun t => !(normKey t == normKey s)) := by
  rw [keepFirst.eq_def]

theorem dedupeClaimed_cons (s : String) (rest : List String) :
    dedupeClaimed (s :: rest) =
      s :: dedupeClaimed (rest.filter fun t => !(normKey t == normKey s)) := by
  rw [dedupeClaimed.eq_def]

theorem string_beq_decide (a b : String) : (a == b) = decide (a = b) := by
  cases h : a == b
  · simp_all
  · simp_all

theorem dedupeAux_cons (seen : List String) (s : String) (rest : List String) :
    dedupeAux seen (s :: rest) =
      if (normKey s != "" && !(seen.contains (normKey s))) = true then
        s :: dedupeAux (normKey s :: seen) rest
      else dedupeAux seen rest := rfl

theorem dedupeAux_eq_keepFirst (l : List String) :
    ∀ seen : List String,
      dedupeAux seen l = keepFirst (l.filter fun s => !(seen.contains (normKey s))) := by
  induction l with
  | nil => intro seen; simp [dedupeAux, keepFirst]
  | cons s rest ih =>
    intro seen
    by_cases hseen : seen.contains (normKey s)
    · have hmem : normKey s ∈ seen := by simpa using hseen
      have c1 : ¬((normKey s != "" && !(seen.contains (normKey s))) = true) := by
        simp [hmem]
      have c2 : ¬((!(seen.contains (normKey s))) = true) := by simp [hmem]
      rw [dedupeAux_cons, if_neg c1, List.filter_cons, if_neg c2]
      exact ih seen
    · rw [Bool.not_eq_true] at hseen
      have hnmem : normKey s ∉ seen := by simpa using hseen
      have c2 : (!(seen.contains (normKey s))) = true := by simp [hnmem]
      by_cases hkey : normKey s = ""
      · have c1 : ¬((normKey s != "" && !(seen.contains (normKey s))) = true) := by
          simp [hkey]
        rw [dedupeAux_cons, if_neg c1, List.filter_cons, if_pos c2, keepFirst_cons,
          if_pos hkey]
        exact ih seen
      · have c1 : ((normKey s != "" && !(seen.contains (normKey s))) = true) := by
          simp [hkey, hnmem]
        rw [dedupeAux_cons, if_pos c1, List.filter_cons, if_pos c2, keepFirst_cons,
          if_neg hkey]
        congr 1
        rw [ih (normKey s :: seen), List.filter_filter]
        congr 1
        exact List.filter_congr fun a _ => by
          simp [List.contains_cons, Bool.not_or, string_beq_decide]

theorem pyTake_ofNat (n : ℕ) (l : List α) : pyTake (n : Int) l = l.take n := by
  unfold pyTake
  rw [if_pos (Int.natCast_nonneg n)]
  simp

theorem rerank_of_ne_nil (rr : String → String → ℚ) (q : String)
    (cands : List Candidate) (h : cands ≠ []) (fk : Int) :
    rerank rr q cands fk =
      pyTake fk (List.insertionSort rerankGE (cands.map fun c =>
        ({ props := c.props, score := c.score
           rerank_score := rr q c.props.enriched_text } : RankedCandidate))) := by
  unfold rerank
  rw [if_neg (by simp [List.isEmpty_iff, h])]

theorem length_rerank_ofNat (rr : String → String → ℚ) (q : String)
    (cands : List Candidate) (n : ℕ) :
    (rerank rr q cands (n : Int)).length = min cands.length n := by
  by_cases h : cands = []
  · subst h; simp [rerank]
  · rw [rerank_of_ne_nil rr q cands h, pyTake_ofNat]
    simp [Nat.min_comm]

theorem getChunks_eq_map (chunks : List Chunk) (idxs : List ℕ)
    (h : ∀ i ∈ idxs, i < chunks.length) :
    getChunks chunks idxs = some (idxs.map fun i => chunks.getD i emptyChunk) := by
  induction idxs with
  | nil => rfl
  | cons i rest ih =>
    have hi : i < chunks.length := h i (List.mem_cons_self i rest)
    have hrest : ∀ j ∈ rest, j < chunks.length := fun j hj => h j (List.mem_cons_of_mem i hj)
    simp [getChunks, List.getElem?_eq_getElem hi, ih hrest,
      List.getD_eq_getElem chunks emptyChunk hi]

theorem getChunks_some_range (chunks : List Chunk) (idxs : List ℕ) (l : List Chunk)
    (h : getChunks chunks idxs = some l) : ∀ i ∈ idxs, i < chunks.length := by
  induction idxs generalizing l with
  | nil => intro i hi; cases hi
  | cons i rest ih =>
    intro j hj
    simp only [getChunks, Option.bind_eq_bind, Option.bind_eq_some] at h
    obtain ⟨c, hc, cs, hcs, -⟩ := h
    obtain ⟨hlt, -⟩ := List.getElem?_eq_some_iff.mp hc
    rcases List.mem_cons.mp hj with rfl | hjr
    · exact hlt
    · exact ih cs hcs j hjr

theorem dictGetAux_eq_none (m : List (String × ℚ)) (key : String)
    (h : key ∉ m.map Prod.fst) : dictGetAux m key = none := by
  induction m with
  | nil => rfl
  | cons p rest ih =>
    rw [List.map_cons, List.mem_cons] at h
    push_neg at h
    have hbeq : (p.1 == key) = false := by
      simp [string_beq_decide]
      exact fun hk => h.1 hk.symm
    simp [dictGetAux, ih h.2, hbeq]

theorem dictGetAux_of_mem (m : List (String × ℚ)) (key : String) (v : ℚ)
    (hmem : (key, v) ∈ m) (hnd : (m.map Prod.fst).Nodup) :
    dictGetAux m key = some v := by
  induction m with
  | nil => cases hmem
  | cons p rest ih =>
    rw [List.map_cons, List.nodup_cons] at hnd
    rcases List.mem_cons.mp hmem with heq | hmemr
    · have hrest : dictGetAux rest key = none := by
        apply dictGetAux_eq_none
        rw [← heq] at hnd
        exact hnd.1
      rw [← heq]
      simp [dictGetAux, hrest]
    · simp [dictGetAux, ih hmemr hnd.2]

theorem dictGet_of_mem (m : List (String × ℚ)) (key : String) (v : ℚ)
    (hmem : (key, v) ∈ m) (hnd : (m.map Prod.fst).Nodup) :
    dictGet m key = v := by
  unfold dictGet
  rw [dictGetAux_of_mem m key v hmem hnd]
  rfl

theorem nodup_mapped_citations (chunks : List Chunk) (idxs : List ℕ)
    (hchunks : (chunks.map fun c => c.display_citation).Nodup) (hidxs : idxs.Nodup)
    (hrange : ∀ i ∈ idxs, i < chunks.length) :
    ((idxs.map fun i => chunks.getD i emptyChunk).map fun c => c.display_citation).Nodup := by
  rw [List.map_map]
  apply List.Nodup.map_on _ hidxs
  intro x hx y hy hxy
  have hxl := hrange x hx
  have hyl := hrange y hy
  have hxm : x < (chunks.map fun c => c.display_citation).length := by simpa using hxl
  have hym : y < (chunks.map fun c => c.display_citation).length := by simpa using hyl
  simp only [Function.comp] at hxy
  rw [List.getD_eq_getElem chunks emptyChunk hxl,
    List.getD_eq_getElem chunks emptyChunk hyl] at hxy
  have hget : (chunks.map fun c => c.display_citation)[x] =
      (chunks.map fun c => c.display_citation)[y] := by
    simpa [List.getElem_map] using hxy
  exact (hchunks.getElem_inj_iff).mp hget

/-! ## Claim theorems -/

/-- C2: `tune_alpha` is deterministic, pattern-based and first-match-wins with
base 0.55: a legal-reference match gives `max(0.30, 0.55 - 0.25) = 0.30`; else
a number-with-unit match gives `max(0.40, 0.55 - 0.15) = 0.40`; else
`min(0.75, 0.55 + 0.20) = 0.75`; hence the result always lies in
`[0.30, 0.75]`. -/
theorem C2_tune_alpha_spec (q : String) :
    tune_alpha q =
      (if legalHintSearch q then (0.30 : ℚ)
       else if numericInfoSearch q then 0.40 else 0.75) ∧
    (0.30 : ℚ) ≤ tune_alpha q ∧ tune_alpha q ≤ 0.75 := by
  unfold tune_alpha
  cases h1 : legalHintSearch q <;> cases h2 : numericInfoSearch q <;>
    norm_num [max_def, min_def]

/-- C3: `rerank` returns exactly `min(|input|, finalK)` candidates, all drawn
from the input (with `rerank_score` computed by the cross-encoder oracle on
the query and the candidate `enriched_text`, and the fusion score carried over
unchanged), the output is non-increasing in the reranker score, and an empty
candidate list yields the empty list for every oracle (the oracle is not
consulted). -/
theorem C3_rerank_spec (rr : String → String → ℚ) (q : String)
    (cands : List Candidate) (fk : ℕ) :
    (rerank rr q cands (fk : Int)).length = min cands.length fk ∧
    List.Sorted rerankGE (rerank rr q cands (fk : Int)) ∧
    (∀ c ∈ rerank rr q cands (fk : Int), ∃ orig ∈ cands,
        c.props = orig.props ∧ c.score = orig.score ∧
        c.rerank_score = rr q orig.props.enriched_text) ∧
    rerank rr q [] (fk : Int) = [] := by
  refine ⟨length_rerank_ofNat rr q cands fk, ?_, ?_, rfl⟩
  · by_cases h : cands = []
    · subst h; simp [rerank, List.Sorted]
    · rw [rerank_of_ne_nil rr q cands h, pyTake_ofNat]
      exact List.Pairwise.sublist (List.take_sublist _ _)
        (List.sorted_insertionSort rerankGE _)
  · intro c hc
    by_cases h : cands = []
    · subst h; simp [rerank] at hc
    · rw [rerank_of_ne_nil rr q cands h, pyTake_ofNat] at hc
      have hmem := (List.take_sublist _ _).subset hc
      rw [List.mem_insertionSort] at hmem
      obtain ⟨orig, ho, rfl⟩ := List.mem_map.mp hmem
      exact ⟨orig, ho, rfl, rfl, rfl⟩

/-- C6 (counterexample): with an EMPTY lexical result set, fusion raises
instead of returning a ranked list — `np.max(bm25_scores)` of the empty score
array raises `ValueError` before any merging happens, even though a dense
candidate is available. -/
theorem C6_counterexample :
    retrieve_hybrid [] [] [] [{ props := mkChunk "A", score := 1 }] (3 / 4) 5 = none := rfl

/-- C6 (amended): fusion tolerates an empty DENSE result set — the lexical
side alone is merged, every fused candidate getting the zero dense
contribution `(1 - alpha) * lexicalScore` — but an empty LEXICAL result set
makes fusion raise (`np.max` of an empty array), rather than contributing a
zero score. -/
theorem C6_amended (chunks : List Chunk) (bm25_indices : List ℕ)
    (bm25_scores : List ℚ) (dense_results : List Candidate) (alpha : ℚ) (k : ℕ)
    (hne : bm25_scores ≠ []) (hrange : ∀ i ∈ bm25_indices, i < chunks.length) :
    (retrieve_hybrid chunks bm25_indices bm25_scores [] alpha k).isSome ∧
    (∀ out, retrieve_hybrid chunks bm25_indices bm25_scores [] alpha k = some out →
      ∀ c ∈ out, ∃ m, lexScoreMap chunks bm25_indices bm25_scores = some m ∧
        c.score = (1 - alpha) * dictGet m c.props.display_citation) ∧
    retrieve_hybrid chunks bm25_indices [] dense_results alpha k = none := by
  obtain ⟨mx, hmx⟩ : ∃ mx, bm25_scores.max? = some mx := by
    rcases h : bm25_scores.max? with - | mx
    · exact absurd (List.max?_eq_none_iff.mp h) hne
    · exact ⟨mx, rfl⟩
  have hnorm : normalizeScores bm25_scores =
      some (bm25_scores.map fun s => s / (mx + EPS)) := by
    simp [normalizeScores, hmx]
  have hget := getChunks_eq_map chunks bm25_indices hrange
  have hlex : lexScoreMap chunks bm25_indices bm25_scores =
      some (((bm25_indices.map fun i => chunks.getD i emptyChunk).map
        fun c => c.display_citation).zip (bm25_scores.map fun s => s / (mx + EPS))) := by
    simp [lexScoreMap, hnorm, hget]
  refine ⟨?_, ?_, ?_⟩
  · simp [retrieve_hybrid, hybridCombined, hlex, hget]
  · intro out hout c hc
    refine ⟨_, hlex, ?_⟩
    simp only [retrieve_hybrid, hybridCombined, hlex, hget, Option.bind_eq_bind,
      Option.some_bind, Option.pure_def, Option.map_some', Option.some.injEq] at hout
    subst hout
    have hmem := (List.take_sublist _ _).subset hc
    rw [List.mem_insertionSort] at hmem
    simp only [List.map_nil, List.nil_append] at hmem
    obtain ⟨ch, -, rfl⟩ := List.mem_map.mp hmem
    rfl
  · simp [retrieve_hybrid, hybridCombined, lexScoreMap, normalizeScores]

/-- Witness for C6 (amended) at a one-fragment corpus. -/
theorem C6_witness :
    ([(10 : ℚ)] ≠ []) ∧
    (∀ i ∈ [0], i < [mkChunk "B"].length) ∧
    (retrieve_hybrid [mkChunk "B"] [0] [10] [] (3 / 4) 5).isSome ∧
    retrieve_hybrid [mkChunk "B"] [0] [] [{ props := mkChunk "A", score := 1 }] (3 / 4) 5
      = none :=
  ⟨by decide, by decide,
    (C6_amended [mkChunk "B"] [0] [10] [{ props := mkChunk "A", score := 1 }] (3 / 4) 5
      (by decide) (by decide)).1,
    (C6_amended [mkChunk "B"] [0] [10] [{ props := mkChunk "A", score := 1 }] (3 / 4) 5
      (by decide) (by decide)).2.2⟩

/-- C7 (counterexample): a fragment (citation "B") present only in the lexical
top-k does NOT always appear in the fused candidate pool returned by
`retrieve_hybrid` — the pool is truncated to `poolSize` after sorting, and
with `poolSize = 1` the lexical-only fragment (fused score ≈ 0.25) is dropped
in favour of the dense fragment (fused score 0.75). -/
theorem C7_counterexample :
    retrieve_hybrid [mkChunk "B"] [0] [10] [{ props := mkChunk "A", score := 1 }] (3 / 4) 1 =
      some [{ props := mkChunk "A", score := 3 / 4 }] ∧
    ({ props := mkChunk "A", score := (3 / 4 : ℚ) } : Candidate).props.display_citation ≠ "B" := by
  constructor
  · norm_num [retrieve_hybrid, hybridCombined, lexScoreMap, normalizeScores, getChunks,
      dictGet, dictGetAux, EPS, scoreGE, mkChunk, emptyChunk, List.max?, List.foldl]
    simp only [String.reduceEq, reduceIte, Option.getD_none, mul_zero, add_zero]
    norm_num
  · decide

/-- C7 (amended): a fragment present only in the lexical top-k appears in the
PRE-TRUNCATION fused pool (`hybridCombined`) exactly once, with fused score
`(1 - alpha) * normalizedLexicalScore` where the normalized lexical score is
the raw BM25 score divided by `(max raw score + 1e-8)`; it survives into the
returned pool only when it ranks within the top `poolSize` after sorting. -/
theorem C7_amended (chunks : List Chunk) (bm25_indices : List ℕ) (bm25_scores : List ℚ)
    (dense_results : List Candidate) (alpha : ℚ) (j : ℕ)
    (hchunks : (chunks.map fun c => c.display_citation).Nodup)
    (hidxs : bm25_indices.Nodup)
    (hrange : ∀ i ∈ bm25_indices, i < chunks.length)
    (hlen : bm25_indices.length ≤ bm25_scores.length)
    (hj : j < bm25_indices.length)
    (habs : (chunks.getD (bm25_indices.getD j 0) emptyChunk).display_citation ∉
      dense_results.map fun r => r.props.display_citation) :
    ∃ mx m comb,
      bm25_scores.max? = some mx ∧
      lexScoreMap chunks bm25_indices bm25_scores = some m ∧
      hybridCombined chunks bm25_indices bm25_scores dense_results alpha = some comb ∧
      dictGet m (chunks.getD (bm25_indices.getD j 0) emptyChunk).display_citation =
        bm25_scores.getD j 0 / (mx + EPS) ∧
      ({ props := chunks.getD (bm25_indices.getD j 0) emptyChunk,
         score := (1 - alpha) * (bm25_scores.getD j 0 / (mx + EPS)) } : Candidate) ∈ comb := by
  have hjs : j < bm25_scores.length := lt_of_lt_of_le hj hlen
  have hne : bm25_scores ≠ [] := by
    intro h; rw [h] at hjs; exact absurd hjs (by simp)
  obtain ⟨mx, hmx⟩ : ∃ mx, bm25_scores.max? = some mx := by
    rcases h : bm25_scores.max? with - | mx
    · exact absurd (List.max?_eq_none_iff.mp h) hne
    · exact ⟨mx, rfl⟩
  have hnorm : normalizeScores bm25_scores =
      some (bm25_scores.map fun s => s / (mx + EPS)) := by
    simp [normalizeScores, hmx]
  have hget := getChunks_eq_map chunks bm25_indices hrange
  set bchunks := bm25_indices.map fun i => chunks.getD i emptyChunk with hbchunks
  set keys := bchunks.map fun c => c.display_citation with hkeys
  set norm := bm25_scores.map fun s => s / (mx + EPS) with hnormdef
  have hlex : lexScoreMap chunks bm25_indices bm25_scores = some (keys.zip norm) := by
    simp [lexScoreMap, hnorm, hget, hkeys]
  have hkeyslen : keys.length = bm25_indices.length := by simp [hkeys, hbchunks]
  have hnormlen : norm.length = bm25_scores.length := by simp [hnormdef]
  have hkeysnorm : keys.length ≤ norm.length := by
    rw [hkeyslen, hnormlen]; exact hlen
  have hjk : j < keys.length := by rw [hkeyslen]; exact hj
  have hjn : j < norm.length := by rw [hnormlen]; exact hjs
  have hjz : j < (keys.zip norm).length := by
    rw [List.length_zip]; exact lt_min hjk hjn
  have hij : bm25_indices.getD j 0 = bm25_indices[j] := List.getD_eq_getElem _ _ hj
  have hjb : j < bchunks.length := by
    simp only [hbchunks, List.length_map]; exact hj
  have hkeyj : keys[j] = (chunks.getD (bm25_indices.getD j 0) emptyChunk).display_citation := by
    rw [hij]
    simp only [hkeys, hbchunks, List.getElem_map]
  have hnormj : norm[j] = bm25_scores.getD j 0 / (mx + EPS) := by
    rw [List.getD_eq_getElem _ _ hjs]
    simp only [hnormdef, List.getElem_map]
  have hmemzip : (keys[j], norm[j]) ∈ keys.zip norm := by
    have := @List.getElem_zip String ℚ keys norm j hjz
    rw [← this]
    exact List.getElem_mem hjz
  have hndkeys : keys.Nodup := by
    have := nodup_mapped_citations chunks bm25_indices hchunks hidxs hrange
    rw [hkeys, hbchunks]; exact this
  have hndfst : ((keys.zip norm).map Prod.fst).Nodup := by
    rw [List.map_fst_zip keys norm hkeysnorm]; exact hndkeys
  have hdict : dictGet (keys.zip norm) keys[j] = norm[j] :=
    dictGet_of_mem _ _ _ hmemzip hndfst
  have hsome : (hybridCombined chunks bm25_indices bm25_scores dense_results alpha).isSome := by
    simp [hybridCombined, hlex, hget]
  obtain ⟨comb, hcomb⟩ := Option.isSome_iff_exists.mp hsome
  have hcombeq : comb =
      (dense_results.map fun dr =>
        ({ props := dr.props, score := alpha * dr.score +
            (1 - alpha) * dictGet (keys.zip norm) dr.props.display_citation } : Candidate)) ++
      ((bchunks.filter fun c => !((dense_results.map fun r =>
          r.props.display_citation).contains c.display_citation)).map fun c =>
        ({ props := c, score := (1 - alpha) * dictGet (keys.zip norm) c.display_citation } :
          Candidate)) := by
    have h := hcomb
    simp only [hybridCombined, hlex, hget, Option.bind_eq_bind, Option.some_bind,
      Option.pure_def, Option.some.injEq] at h
    exact h.symm
  refine ⟨mx, keys.zip norm, comb, hmx, hlex, hcomb, ?_, ?_⟩
  · rw [← hkeyj, hdict, hnormj]
  · have hchj : chunks.getD (bm25_indices.getD j 0) emptyChunk = bchunks[j] := by
      rw [hij]
      simp only [hbchunks, List.getElem_map]
    have hchmem : chunks.getD (bm25_indices.getD j 0) emptyChunk ∈ bchunks := by
      rw [hchj]; exact List.getElem_mem hjb
    have hpred : (!((dense_results.map fun r => r.props.display_citation).contains
        (chunks.getD (bm25_indices.getD j 0) emptyChunk).display_citation)) = true := by
      simpa using habs
    have hfilt : chunks.getD (bm25_indices.getD j 0) emptyChunk ∈
        bchunks.filter fun c => !((dense_results.map fun r =>
          r.props.display_citation).contains c.display_citation) :=
      List.mem_filter.mpr ⟨hchmem, hpred⟩
    have hmem2 := List.mem_map_of_mem (fun c =>
      ({ props := c, score := (1 - alpha) * dictGet (keys.zip norm) c.display_citation } :
        Candidate)) hfilt
    rw [hcombeq]
    refine List.mem_append_right _ ?_
    have hscore : (1 - alpha) * dictGet (keys.zip norm)
        (chunks.getD (bm25_indices.getD j 0) emptyChunk).display_citation =
        (1 - alpha) * (bm25_scores.getD j 0 / (mx + EPS)) := by
      rw [← hkeyj, hdict, hnormj]
    rw [← hscore]
    exact hmem2

/-- Witness for C7 (amended): lexical-only fragment "B" (raw score 10, sole
and maximal score) sits in the combined pool with score
`(1 - 3/4) * (10 / (10 + 1e-8))`. -/
theorem C7_witness :
    (([mkChunk "B"].map fun c => c.display_citation).Nodup) ∧
    ([0] : List ℕ).Nodup ∧
    (∀ i ∈ [0], i < [mkChunk "B"].length) ∧
    ([0] : List ℕ).length ≤ ([(10 : ℚ)]).length ∧
    0 < ([0] : List ℕ).length ∧
    (([mkChunk "B"].getD ([0].getD 0 0) emptyChunk).display_citation ∉
      ([{ props := mkChunk "A", score := (1 : ℚ) }] : List Candidate).map
        fun r => r.props.display_citation) ∧
    (∃ mx m comb,
      ([(10 : ℚ)]).max? = some mx ∧
      lexScoreMap [mkChunk "B"] [0] [10] = some m ∧
      hybridCombined [mkChunk "B"] [0] [10] [{ props := mkChunk "A", score := 1 }] (3 / 4) =
        some comb ∧
      dictGet m ([mkChunk "B"].getD ([0].getD 0 0) emptyChunk).display_citation =
        ([(10 : ℚ)]).getD 0 0 / (mx + EPS) ∧
      ({ props := [mkChunk "B"].getD ([0].getD 0 0) emptyChunk,
         score := (1 - 3 / 4) * (([(10 : ℚ)]).getD 0 0 / (mx + EPS)) } : Candidate) ∈ comb) :=
  ⟨by decide, by decide, by decide, by decide, by decide, by decide,
    C7_amended [mkChunk "B"] [0] [10] [{ props := mkChunk "A", score := 1 }] (3 / 4) 0
      (by decide) (by decide) (by decide) (by decide) (by decide) (by decide)⟩

/-- C1: under the invariant that citation keys identify fragments (dense
result citations pairwise distinct, corpus citations pairwise distinct, BM25
indices distinct — and `np.argsort` always yields distinct indices), a
successful `retrieve_hybrid` output is sorted non-increasing by fused score,
has pairwise distinct citation keys, and has length at most `poolSize`; every
dense candidate contributes exactly once to the (citation-Nodup) combined
pool, with fused score `alpha * denseScore + (1 - alpha) * lexicalScore`
(lexical score looked up in the normalized BM25 map, `0` when absent). -/
theorem C1_hybrid_spec (chunks : List Chunk) (bm25_indices : List ℕ)
    (bm25_scores : List ℚ) (dense_results : List Candidate) (alpha : ℚ) (k : ℕ)
    (out : List Candidate)
    (hdense : (dense_results.map fun r => r.props.display_citation).Nodup)
    (hchunks : (chunks.map fun c => c.display_citation).Nodup)
    (hidxs : bm25_indices.Nodup)
    (hout : retrieve_hybrid chunks bm25_indices bm25_scores dense_results alpha k = some out) :
    List.Sorted scoreGE out ∧
    (out.map fun c => c.props.display_citation).Nodup ∧
    out.length ≤ k ∧
    ∀ dr ∈ dense_results, ∃ m comb,
      lexScoreMap chunks bm25_indices bm25_scores = some m ∧
      hybridCombined chunks bm25_indices bm25_scores dense_results alpha = some comb ∧
      (comb.map fun c => c.props.display_citation).Nodup ∧
      ({ props := dr.props,
         score := alpha * dr.score + (1 - alpha) * dictGet m dr.props.display_citation } :
        Candidate) ∈ comb := by
  rcases hcomb : hybridCombined chunks bm25_indices bm25_scores dense_results alpha with - | comb
  · rw [retrieve_hybrid, hcomb] at hout; cases hout
  have hout2 : out = (List.insertionSort scoreGE comb).take k := by
    rw [retrieve_hybrid, hcomb] at hout
    exact (Option.some.injEq _ _).mp hout.symm
  rcases hlex : lexScoreMap chunks bm25_indices bm25_scores with - | m
  · rw [hybridCombined, hlex] at hcomb; cases hcomb
  rcases hget : getChunks chunks bm25_indices with - | bchunks
  · rw [hybridCombined, hlex, hget] at hcomb
    simp at hcomb
  have hcombeq : comb =
      (dense_results.map fun dr =>
        ({ props := dr.props, score := alpha * dr.score +
            (1 - alpha) * dictGet m dr.props.display_citation } : Candidate)) ++
      ((bchunks.filter fun c => !((dense_results.map fun r =>
          r.props.display_citation).contains c.display_citation)).map fun c =>
        ({ props := c, score := (1 - alpha) * dictGet m c.display_citation } : Candidate)) := by
    have h := hcomb
    simp only [hybridCombined, hlex, hget, Option.bind_eq_bind, Option.some_bind,
      Option.pure_def, Option.some.injEq] at h
    exact h.symm
  have hrange := getChunks_some_range chunks bm25_indices bchunks hget
  have hbchunks : bchunks = bm25_indices.map fun i => chunks.getD i emptyChunk := by
    have h := getChunks_eq_map chunks bm25_indices hrange
    rw [hget] at h
    exact (Option.some.injEq _ _).mp h
  have hndcomb : (comb.map fun c => c.props.display_citation).Nodup := by
    rw [hcombeq, List.map_append, List.map_map, List.map_map]
    have he1 : ((fun c : Candidate => c.props.display_citation) ∘ fun dr : Candidate =>
        ({ props := dr.props, score := alpha * dr.score +
            (1 - alpha) * dictGet m dr.props.display_citation } : Candidate)) =
        fun r : Candidate => r.props.display_citation := rfl
    have he2 : ((fun c : Candidate => c.props.display_citation) ∘ fun c : Chunk =>
        ({ props := c, score := (1 - alpha) * dictGet m c.display_citation } : Candidate)) =
        fun c : Chunk => c.display_citation := rfl
    rw [he1, he2]
    have hnd2 : ((bchunks.filter fun c => !((dense_results.map fun r =>
        r.props.display_citation).contains c.display_citation)).map
          fun c => c.display_citation).Nodup := by
      have hsub : ((bchunks.filter fun c => !((dense_results.map fun r =>
          r.props.display_citation).contains c.display_citation)).map
            fun c => c.display_citation).Sublist
          (bchunks.map fun c => c.display_citation) :=
        List.Sublist.map _ (List.filter_sublist _)
      have hndb : (bchunks.map fun c => c.display_citation).Nodup := by
        rw [hbchunks]
        exact nodup_mapped_citations chunks bm25_indices hchunks hidxs hrange
      exact hndb.sublist hsub
    refine List.Nodup.append hdense hnd2 ?_
    intro a ha1 ha2
    obtain ⟨c, hc, rfl⟩ := List.mem_map.mp ha2
    have hnotmem : c.display_citation ∉ dense_results.map fun r => r.props.display_citation := by
      simpa using (List.mem_filter.mp hc).2
    exact hnotmem ha1
  refine ⟨?_, ?_, ?_, ?_⟩
  · rw [hout2]
    exact List.Pairwise.sublist (List.take_sublist _ _)
      (List.sorted_insertionSort scoreGE comb)
  · rw [hout2]
    have hsub : (((List.insertionSort scoreGE comb).take k).map
        fun c => c.props.display_citation).Sublist
        ((List.insertionSort scoreGE comb).map fun c => c.props.display_citation) :=
      List.Sublist.map _ (List.take_sublist _ _)
    have hperm : ((List.insertionSort scoreGE comb).map fun c => c.props.display_citation).Perm
        (comb.map fun c => c.props.display_citation) :=
      (List.perm_insertionSort scoreGE comb).map _
    exact ((hperm.nodup_iff).mpr hndcomb).sublist hsub
  · rw [hout2, List.length_take]
    exact min_le_left _ _
  · intro dr hdr
    refine ⟨m, comb, rfl, rfl, hndcomb, ?_⟩
    rw [hcombeq]
    exact List.mem_append_left _ (List.mem_map_of_mem _ hdr)

/-- Witness for C1 at a two-fragment corpus where the dense hit "A" also
occurs in the lexical top-k (fused score
`1/2 * 1 + 1/2 * (5 / (10 + 1e-8))`) and "B" is lexical-only. -/
theorem C1_witness :
    retrieve_hybrid [mkChunk "B", mkChunk "A"] [0, 1] [10, 5]
        [{ props := mkChunk "A", score := 1 }] (1 / 2) 3 =
      some [{ props := mkChunk "A", score := 1500000001 / 2000000002 },
            { props := mkChunk "B", score := 500000000 / 1000000001 }] ∧
    List.Sorted scoreGE
      [{ props := mkChunk "A", score := 1500000001 / 2000000002 },
       { props := mkChunk "B", score := 500000000 / 1000000001 }] ∧
    (([{ props := mkChunk "A", score := (1500000001 : ℚ) / 2000000002 },
       { props := mkChunk "B", score := (500000000 : ℚ) / 1000000001 }] : List Candidate).map
        fun c => c.props.display_citation).Nodup ∧
    ([{ props := mkChunk "A", score := (1500000001 : ℚ) / 2000000002 },
      { props := mkChunk "B", score := (500000000 : ℚ) / 1000000001 }] : List Candidate).length ≤ 3 := by
  have hout : retrieve_hybrid [mkChunk "B", mkChunk "A"] [0, 1] [10, 5]
      [{ props := mkChunk "A", score := 1 }] (1 / 2) 3 =
      some [{ props := mkChunk "A", score := 1500000001 / 2000000002 },
            { props := mkChunk "B", score := 500000000 / 1000000001 }] := by
    norm_num [retrieve_hybrid, hybridCombined, lexScoreMap, normalizeScores, getChunks,
      dictGet, dictGetAux, EPS, scoreGE, mkChunk, emptyChunk, List.max?, List.foldl]
    simp only [String.reduceEq, reduceIte, Option.getD_none, Option.getD_some, mul_zero,
      add_zero]
    norm_num
  have hc := C1_hybrid_spec [mkChunk "B", mkChunk "A"] [0, 1] [10, 5]
    [{ props := mkChunk "A", score := 1 }] (1 / 2) 3 _ (by decide) (by decide) (by decide) hout
  exact ⟨hout, hc.1, hc.2.1, hc.2.2.1⟩

/-- C10: at the public `retrieve` interface, a falsy `k` (`0` or `None`) is
silently replaced by the default `5` — `retrieve(question, 0)` behaves exactly
like `retrieve(question, 5)` and returns at most 5 results rather than zero
results or an error — while a truthy `k` passes through `int(k)` unchanged. -/
theorem C10_k_default_spec (chunks : List Chunk) (bm25_indices : List ℕ)
    (bm25_scores : List ℚ) (dense_results : List Candidate)
    (rr : String → String → ℚ) (question : String) :
    kEff none = 5 ∧ kEff (some 0) = 5 ∧ (∀ v : Int, v ≠ 0 → kEff (some v) = v) ∧
    retrieve chunks bm25_indices bm25_scores dense_results rr question (some 0) =
      retrieve chunks bm25_indices bm25_scores dense_results rr question none ∧
    retrieve chunks bm25_indices bm25_scores dense_results rr question (some 0) =
      retrieve chunks bm25_indices bm25_scores dense_results rr question (some 5) ∧
    ∀ ctx srcs,
      retrieve chunks bm25_indices bm25_scores dense_results rr question (some 0) =
        some (ctx, srcs) → srcs.length ≤ 5 := by
  refine ⟨rfl, rfl, ?_, rfl, rfl, ?_⟩
  · intro v hv
    simp [kEff, hv]
  · intro ctx srcs h
    simp only [retrieve, Option.bind_eq_bind] at h
    rcases hc : retrieve_hybrid chunks bm25_indices bm25_scores dense_results
        (tune_alpha question 0.55) INITIAL_K with - | cands
    · rw [hc] at h; cases h
    · rw [hc, Option.some_bind] at h
      simp only [Option.pure_def, Option.some.injEq, Prod.mk.injEq] at h
      obtain ⟨-, h2⟩ := h
      have hlen : (rerank rr question cands (kEff (some 0))).length = min cands.length 5 :=
        length_rerank_ofNat rr question cands 5
      rw [← h2, List.length_map, hlen]
      exact min_le_right _ _

/-- Witness for C10: with `k = 0`, the pipeline returns the single available
result ("A"), i.e. up to 5 results, not zero; and a truthy negative `k` passes
through unchanged. -/
theorem C10_witness :
    ((-3 : Int) ≠ 0) ∧ kEff (some (-3)) = -3 ∧
    retrieve [] [] [1] [{ props := mkChunk "A", score := 1 }]
        (fun _ _ => (1 / 2 : ℚ)) "q" (some 0) = some ("[Căn cứ: A]", ["A"]) ∧
    (["A"] : List String).length ≤ 5 := by
  have h0 : retrieve [] [] [1] [{ props := mkChunk "A", score := 1 }]
      (fun _ _ => (1 / 2 : ℚ)) "q" (some 0) = some ("[Căn cứ: A]", ["A"]) := by
    norm_num [retrieve, retrieve_hybrid, hybridCombined, lexScoreMap, normalizeScores,
      getChunks, dictGet, dictGetAux, EPS, scoreGE, rerankGE, mkChunk, emptyChunk,
      List.max?, List.foldl, kEff, tune_alpha, rerank, pyTake, formatChunk, pyStrip,
      INITIAL_K]
    decide
  refine ⟨by decide, ?_, h0, by decide⟩
  exact (C10_k_default_spec [] [] [1] [{ props := mkChunk "A", score := 1 }]
    (fun _ _ => (1 / 2 : ℚ)) "q").2.2.1 (-3) (by decide)

/-- C4 (code bug): a dense hit whose cosine distance is present and exactly
`0` receives score `0`, not `1 - 0 = 1` as the contract
`score = 1 − cosineDistance` states — the Python conditional
`1.0 - d if d else 0.0` treats the falsy distance `0.0` like an absent one. -/
theorem C4_dense_zero_distance_bug :
    retrieve_dense [{ props := emptyChunk, distance := some 0 }] =
      [{ props := emptyChunk, score := 0 }] ∧
    denseScore (some 0) = 0 ∧ denseScore (some 0) ≠ 1 - (0 : ℚ) := by
  refine ⟨rfl, rfl, by norm_num [denseScore]⟩

/-- C8 (counterexample): `_dedupe_sources` does not keep the first occurrence
of EVERY citation — a citation whose normalized key is empty is dropped
entirely (`if key and ...`), while the claimed dedup (`dedupeClaimed`, first
occurrence wins, later duplicates dropped) keeps it. -/
theorem C8_counterexample :
    dedupe_sources [""] = [] ∧ dedupeClaimed [""] = [""] ∧
    dedupe_sources [""] ≠ dedupeClaimed [""] := by
  have h1 : dedupe_sources [""] = [] := rfl
  have h2 : dedupeClaimed [""] = [""] := by
    rw [dedupeClaimed]
    simp [dedupeClaimed]
  exact ⟨h1, h2, by rw [h1, h2]; simp⟩

/-- C8 (amended): `_dedupe_sources` keeps, in rank order, the first occurrence
of each citation whose case/whitespace-normalized form is nonempty, dropping
later duplicates AND dropping citations that normalize to the empty string;
in particular `["A", "b", "A", "C"]` yields `["A", "b", "C"]`. -/
theorem C8_amended :
    (∀ l, dedupe_sources l = keepFirst l) ∧
    dedupe_sources ["A", "b", "A", "C"] = ["A", "b", "C"] := by
  constructor
  · intro l
    have h := dedupeAux_eq_keepFirst l []
    simpa [dedupe_sources] using h
  · rfl

/-- C9: whenever the composed context is shorter than the 300-character policy
threshold (the empty context included), `generate_answer` returns the fixed
insufficient-information sentinel with an empty citation list; the result does
not depend on the generation oracle, which is never consulted in this branch. -/
theorem C9_short_context_sentinel (oracle : String → Except String String)
    (question context : String) (sources : Option (List String))
    (h : context.length < 300) :
    generate_answer oracle question context sources = (INSUFFICIENT_INFO_MSG, []) := by
  unfold generate_answer
  rw [if_pos (Or.inr h)]

/-- Witness for C9 at the empty context. -/
theorem C9_witness :
    ("" : String).length < 300 ∧
    generate_answer (fun p => Except.ok p) "hỏi" "" none = (INSUFFICIENT_INFO_MSG, []) :=
  ⟨by decide, C9_short_context_sentinel (fun p => Except.ok p) "hỏi" "" none (by decide)⟩

end LegalQA
